import Mathlib

/-!
Verification of the ELK file-based calculator adapter (`src/ase/calculators/elk.py`)
and the ForceQMMM carve-out geometry exercised by
`src/ase/test/forcefields/test_forceqmmm.py`.

A text file is embedded as its list of lines, each line a `List Char` that
contains no newline character; `fileText` rebuilds the raw text that Python's
`read()` returns.  Python numeral parsing (`float`, `int`) is abstracted by
function parameters `pf : List Char → ℚ` and `pyInt : List Char → ℕ`, and the
unit constants `Hartree` and `Bohr` from `ase.units` (outside this fragment)
are abstract positive rationals; every theorem is universally quantified over
them.  Exceptions are embedded with `Except PyErr`.
-/

namespace ElkModel

/-- Python exception outcomes raised by the adapter's routines. -/
inductive PyErr where
  | readError (filename : String)
  | fileNotFoundError
  | runtimeError
  | typeError
  | indexError
  | assertionError
  | propertyNotImplementedError
deriving DecidableEq, Repr

/-- Lowercasing of a text, as Python `str.lower` acts on the ASCII ELK output. -/
def lower (s : List Char) : List Char := s.map Char.toLower

/-- `containsSub needle hay` holds when `needle` occurs contiguously in `hay`;
this embeds Python's `needle in hay` and `hay.rfind(needle) > -1` tests. -/
def containsSub (needle : List Char) : List Char → Bool
  | [] => needle.isEmpty
  | c :: t => needle.isPrefixOf (c :: t) || containsSub needle t

/-- Raw text of a file given as lines, each line terminated by a newline,
as Python's `read()` returns it. -/
def fileText (lines : List (List Char)) : List Char :=
  (lines.map (fun l => l ++ ['\n'])).flatten

/-- The convergence marker searched for in `INFO.OUT` by `read_convergence`. -/
def convergedMarker : List Char := "convergence targets achieved".toList

/-- The failed-loop marker whose presence makes `read_convergence` report
non-convergence even when the convergence marker is present. -/
def loopsMaxMarker : List Char := "reached self-consistent loops maximum".toList

/-- The marker selecting force lines of `INFO.OUT` in `read_forces`. -/
def totalForceMarker : List Char := "total force".toList

/-- The marker locating the k-point count in `KPOINTS.OUT` and `EIGVAL.OUT`. -/
def nkptMarker : List Char := ": nkpt".toList

/-- The marker locating the state count in `EIGVAL.OUT`. -/
def nstsvMarker : List Char := ": nstsv".toList

/-- `ELK.read_convergence`: lowercase the whole text of `INFO.OUT` and report
convergence when the convergence marker is present and the failed-loop marker
is absent. -/
def read_convergence (info : List (List Char)) : Bool :=
  containsSub convergedMarker (lower (fileText info)) &&
    !(containsSub loopsMaxMarker (lower (fileText info)))

/-- Splitting of a character list at every separator satisfying `p`, keeping
empty segments, as Python `str.split(sep)` does for a one-character `sep`. -/
def splitOnPred (p : Char → Bool) : List Char → List (List Char)
  | [] => [[]]
  | c :: t =>
    if p c then [] :: splitOnPred p t
    else
      match splitOnPred p t with
      | [] => [[c]]
      | h :: r => (c :: h) :: r

/-- Python `line.split(':')`. -/
def pySplitColon (l : List Char) : List (List Char) :=
  splitOnPred (fun c => c == ':') l

/-- Python `line.split()`: split on whitespace runs, dropping empty pieces. -/
def pySplitWs (l : List Char) : List (List Char) :=
  (splitOnPred Char.isWhitespace l).filter (fun t => !t.isEmpty)

/-- Python `s.strip()`. -/
def pyStrip (l : List Char) : List Char :=
  ((l.dropWhile Char.isWhitespace).reverse.dropWhile Char.isWhitespace).reverse

/-- The characters to the right of the first colon of a line (the reading the
spec gives of `split(':')[1]`, exact whenever the line has one colon). -/
def afterFirstColon (l : List Char) : List Char :=
  (l.dropWhile (fun c => c != ':')).drop 1

/-- The calculator's `results` dictionary, restricted to the keys the adapter
stores: `energy`, `free_energy` and `forces`. -/
structure Results where
  energy : Option ℚ := none
  free_energy : Option ℚ := none
  forces : Option (List (List ℚ)) := none
deriving DecidableEq, Repr

/-- `ELK.read_energy`: parse the last line of `TOTENERGY.OUT`, multiply by
`Hartree`, and store the value under both `energy` and `free_energy`; an empty
file makes `readlines()[-1]` raise `IndexError`. -/
def read_energy (pf : List Char → ℚ) (Hartree : ℚ)
    (tot : List (List Char)) (res : Results) : Except PyErr Results :=
  match tot.getLast? with
  | none => .error .indexError
  | some l =>
      .ok { res with energy := some (pf l * Hartree),
                     free_energy := some (pf l * Hartree) }

/-- The loop body of `ELK.read_forces`: keep each line of `INFO.OUT` holding
the `total force` marker, take `split(':')[1]` (raising `IndexError` when the
line has no colon) and parse its whitespace-separated tokens. -/
def read_forces_lines (pf : List Char → ℚ) :
    List (List Char) → Option (List (List ℚ))
  | [] => some []
  | l :: rest =>
    if containsSub totalForceMarker l then
      match (pySplitColon l).get? 1 with
      | none => none
      | some seg =>
          (read_forces_lines pf rest).map
            (fun fs => ((pySplitWs seg).map pf) :: fs)
    else read_forces_lines pf rest

/-- `ELK.read_forces`: the collected force rows, each component scaled by
`Hartree / Bohr` as in `np.array(forces) * Hartree / Bohr`. -/
def read_forces (pf : List Char → ℚ) (Hartree Bohr : ℚ)
    (info : List (List Char)) : Option (List (List ℚ)) :=
  (read_forces_lines pf info).map
    (fun fs => fs.map (fun v => v.map (fun x => x * Hartree / Bohr)))

/-- Python truthiness of `self.parameters.get('tforce')`: absent or `False`
is falsy. -/
def pyTruthy : Option Bool → Bool
  | none => false
  | some b => b

/-- `ELK.read_results`: report failure when `read_convergence` fails —
though building the intended `RuntimeError` message concatenates a `str`
with the `pathlib.Path` that the `out` property returns, so the line raises
`TypeError` instead — otherwise read the energy and, only when the `tforce`
parameter is truthy, the forces.  The trailing reads of scalar properties
(width, band counts, iterations, magnetic moment) touch none of the
`results` keys and are omitted. -/
def read_results (pf : List Char → ℚ) (Hartree Bohr : ℚ)
    (tforce : Option Bool) (info tot : List (List Char)) :
    Except PyErr Results :=
  if !(read_convergence info) then .error .typeError
  else
    match read_energy pf Hartree tot {} with
    | .error e => .error e
    | .ok res =>
        if pyTruthy tforce then
          match read_forces pf Hartree Bohr info with
          | none => .error .indexError
          | some fs => .ok { res with forces := some fs }
        else .ok res

/-- Sequencing of fallible parses: `some` of all results when every element
parses, `none` as soon as one raises. -/
def optMapM (f : α → Option β) : List α → Option (List β)
  | [] => some []
  | x :: xs => (f x).bind (fun y => (optMapM f xs).map (fun ys => y :: ys))

/-- `np.array(values)` after `if len(values) == 0: values = None`: an empty
parse yields `None` rather than an empty array. -/
def emptyToNone (xs : List α) : Option (List α) :=
  if xs.isEmpty then none else some xs

/-- The count announced by the first line of `lines` holding `marker`, parsed
as `int(line.split(':')[0].strip())`; `none` when no line holds the marker. -/
def countAtMarker (pyInt : List Char → ℕ) (marker : List Char)
    (lines : List (List Char)) : Option ℕ :=
  (lines.find? (fun l => containsSub marker l)).map
    (fun l => pyInt (pyStrip ((pySplitColon l).headD [])))

/-- `ELK.read_kpts(mode='ibz_k_points')`: assert that some line of
`KPOINTS.OUT` holds `: nkpt`, then parse `split()[1:4]` of every line after
the first. -/
def read_kpts_ibz (pf : List Char → ℚ) (lines : List (List Char)) :
    Except PyErr (Option (List (List ℚ))) :=
  if lines.any (fun l => containsSub nkptMarker l) then
    .ok (emptyToNone ((lines.drop 1).map
      (fun l => (((pySplitWs l).drop 1).take 3).map pf)))
  else .error .assertionError

/-- `ELK.read_kpts(mode='k_point_weights')`: assert the `: nkpt` marker, then
parse `split()[-2]` of every line after the first; a line with fewer than two
tokens raises `IndexError`. -/
def read_kpts_weights (pf : List Char → ℚ) (lines : List (List Char)) :
    Except PyErr (Option (List ℚ)) :=
  if lines.any (fun l => containsSub nkptMarker l) then
    match optMapM (fun l => ((pySplitWs l).dropLast.getLast?).map pf)
        (lines.drop 1) with
    | none => .error .indexError
    | some vs => .ok (emptyToNone vs)
  else .error .assertionError

/-- Which of the two quantities `ELK.read_eigenvalues` extracts. -/
inductive EigMode where
  | eigenvalues
  | occupations
deriving DecidableEq, Repr

/-- The slice bounds `beg, end` that `read_eigenvalues` computes from the
requested k-point, the spin channel and the state count. -/
def eigBounds (spinpol : Bool) (kpt spin nstsv : ℕ) : ℕ × ℕ :=
  let beg := 2 + (nstsv + 4) * kpt
  if spinpol then
    if spin = 0 then (beg, beg + nstsv / 2) else (beg + nstsv / 2, beg + nstsv)
  else (beg, beg + nstsv)

/-- The data lines `text[beg:end]` that `read_eigenvalues` slices out of
`EIGVAL.OUT` after dropping the first three lines. -/
def eigSegment (spinpol : Bool) (kpt spin nstsv : ℕ)
    (lines : List (List Char)) : List (List Char) :=
  ((lines.drop 3).drop (eigBounds spinpol kpt spin nstsv).1).take
    ((eigBounds spinpol kpt spin nstsv).2 - (eigBounds spinpol kpt spin nstsv).1)

/-- `ELK.read_eigenvalues`: assert the `: nstsv` marker, then the `: nkpt`
marker, slice out the requested k-point block, parse `split()[1:]` of each of
its lines, and return column 0 scaled by `Hartree` (eigenvalues) or column 1
unscaled (occupations); a too-short row raises `IndexError`. -/
def read_eigenvalues (pf : List Char → ℚ) (pyInt : List Char → ℕ)
    (Hartree : ℚ) (spinpol : Bool) (kpt spin : ℕ) (mode : EigMode)
    (lines : List (List Char)) : Except PyErr (Option (List ℚ)) :=
  match countAtMarker pyInt nstsvMarker lines with
  | none => .error .assertionError
  | some nstsv =>
    match countAtMarker pyInt nkptMarker lines with
    | none => .error .assertionError
    | some _ =>
      let rows := (eigSegment spinpol kpt spin nstsv lines).map
        (fun l => ((pySplitWs l).drop 1).map pf)
      match (match mode with
             | .eigenvalues =>
                 optMapM (fun v => v.head?.map (fun x => Hartree * x)) rows
             | .occupations => optMapM (fun v => v.get? 1) rows) with
      | none => .error .indexError
      | some vs => .ok (emptyToNone vs)

/-- `ELK.check_state`: take the system changes of the base calculator and
drop the `pbc` entry, since ELK always applies periodic boundary
conditions. -/
def check_state (base : List String) : List String :=
  if base.contains "pbc" then base.erase "pbc" else base

/-- A run of the external program triggered by a property query. -/
inductive CalcEvent where
  | calculate
deriving DecidableEq, Repr

/-- `ELK.get_forces`: raise `PropertyNotImplementedError` before any
calculation when the `tforce` parameter is falsy; otherwise delegate to the
base class, which (modelled from the spec: the external simulation program is
invoked as a blocking subprocess by the base calculator, outside this
fragment) performs the calculation. -/
def get_forces (tforce : Option Bool) : List CalcEvent × Except PyErr Unit :=
  if !(pyTruthy tforce) then ([], .error .propertyNotImplementedError)
  else ([CalcEvent.calculate], .ok ())

/-- The calculator directory as `ELK.read` sees it: the four required output
files, plus the `elk.in` and `parameters.ase` inputs that are read back; a
`none` entry is an absent file.  `elkin` carries no payload beyond presence
and `paramsase` carries the one parameter the claims consult, `tforce`. -/
structure ElkFS where
  totenergy : Option (List (List Char))
  eigval : Option (List (List Char))
  kpoints : Option (List (List Char))
  info : Option (List (List Char))
  elkin : Option Unit
  paramsase : Option (Option Bool)

/-- The four output files whose absence makes `ELK.read` raise `ReadError`,
in the order the code checks them. -/
def requiredFiles : List String :=
  ["TOTENERGY.OUT", "EIGVAL.OUT", "KPOINTS.OUT", "INFO.OUT"]

/-- Presence of a required output file in the calculator directory. -/
def presentFile (fs : ElkFS) (f : String) : Bool :=
  if f = "TOTENERGY.OUT" then fs.totenergy.isSome
  else if f = "EIGVAL.OUT" then fs.eigval.isSome
  else if f = "KPOINTS.OUT" then fs.kpoints.isSome
  else if f = "INFO.OUT" then fs.info.isSome
  else false

/-- The successful reads `ELK.read` performs after its file checks pass. -/
inductive ReadEvent where
  | readAtoms
  | readParams
  | readResults
deriving DecidableEq, Repr

/-- `ELK.read`: the base-class call only records the label (modelled from the
spec: the adapter parses once after a finished external run; the base class is
outside this fragment), then each of the four required output files is
checked in order before anything is read.  A missing `TOTENERGY.OUT`,
`EIGVAL.OUT` or `KPOINTS.OUT` (plain `os.path.join` strings) raises a
`ReadError` naming the file, but the fourth entry of the checked list is the
`out` property, a `pathlib.Path`, so building its `ReadError` message
concatenates `str + Path` and raises `TypeError` instead; only when all four
are present are the atoms read from `elk.in`, the parameters from
`parameters.ase`, and the results parsed. -/
def ELK.read (pf : List Char → ℚ) (Hartree Bohr : ℚ) (fs : ElkFS) :
    List ReadEvent × Except PyErr Results :=
  match fs.totenergy, fs.eigval, fs.kpoints, fs.info with
  | none, _, _, _ => ([], .error (.readError "TOTENERGY.OUT"))
  | some _, none, _, _ => ([], .error (.readError "EIGVAL.OUT"))
  | some _, some _, none, _ => ([], .error (.readError "KPOINTS.OUT"))
  | some _, some _, some _, none => ([], .error .typeError)
  | some tot, some _, some _, some info =>
    match fs.elkin with
    | none => ([], .error .fileNotFoundError)
    | some _ =>
      match fs.paramsase with
      | none => ([ReadEvent.readAtoms], .error .fileNotFoundError)
      | some tforce =>
        match read_results pf Hartree Bohr tforce info tot with
        | .error e => ([ReadEvent.readAtoms, ReadEvent.readParams], .error e)
        | .ok r =>
            ([ReadEvent.readAtoms, ReadEvent.readParams,
              ReadEvent.readResults], .ok r)

/-- Filesystem effects of preparing and launching a run. -/
inductive IOEvent where
  | mkdir (dir : String)
  | writeParams (path : String)
  | writeAtoms (path : String) (format : String)
  | invoke (command : String)
deriving DecidableEq, Repr

/-- `ELK.write_input`: the base call creates the directory (modelled from the
spec: the base calculator is outside this fragment), then the parameters are
written to `parameters.ase` and the atoms to `elk.in` in `elk-in` format,
both inside the calculator directory. -/
def write_input (dir : String) : List IOEvent :=
  [IOEvent.mkdir dir,
   IOEvent.writeParams (dir ++ "/parameters.ase"),
   IOEvent.writeAtoms (dir ++ "/elk.in") "elk-in"]

/-- Modelled from the spec: `FileIOCalculator.calculate` is outside this
fragment; per the spec ("an input file the adapter writes before invocation",
"invoked as a blocking subprocess") it first runs `write_input` and only then
invokes the external command. -/
def calculate (dir : String) : List IOEvent :=
  write_input dir ++ [IOEvent.invoke "elk > elk.out"]

end ElkModel

namespace QMMMModel

/-- Modelled from the spec: the per-axis periodicity rule of the carved-out
QM cluster ("deciding per-axis periodicity of a carved-out sub-cell"; the
`ForceQMMM` implementation is outside this fragment).  Per the test's
assertions, axis `i` stays periodic exactly when the QM radius plus the
buffer width reaches the original cell length along `i`. -/
def qm_cluster_pbc (R_QM buffer_width cellLen : ℚ) : Bool :=
  cellLen ≤ R_QM + buffer_width

/-- Modelled from the spec: the carved-out cluster cell length along an axis.
A periodic axis keeps the original cell length; a non-periodic axis gets the
carve diameter `2 * (R_QM + buffer_width)` instead. -/
def qm_cluster_cellLen (R_QM buffer_width cellLen : ℚ) : ℚ :=
  if cellLen ≤ R_QM + buffer_width then cellLen
  else 2 * (R_QM + buffer_width)

end QMMMModel

namespace ElkModel

/-- A trace with no invocation of the external command. -/
def noInvoke (tr : List IOEvent) : Bool :=
  tr.all (fun e => match e with | .invoke _ => false | _ => true)

theorem optMapM_eq_map (f : α → Option β) (g : α → β) (xs : List α)
    (h : ∀ x ∈ xs, f x = some (g x)) : optMapM f xs = some (xs.map g) := by
  induction xs with
  | nil => rfl
  | cons x xs ih =>
      simp [optMapM, h x (by simp),
        ih (fun y hy => h y (by simp [hy]))]

theorem optMapM_map (f : β → Option γ) (r : α → β) (xs : List α) :
    optMapM f (xs.map r) = optMapM (fun x => f (r x)) xs := by
  induction xs with
  | nil => rfl
  | cons x xs ih => simp [optMapM, ih]

theorem splitOnPred_ne_nil (p : Char → Bool) (l : List Char) :
    splitOnPred p l ≠ [] := by
  induction l with
  | nil => simp [splitOnPred]
  | cons c t ih =>
      unfold splitOnPred
      by_cases h : p c
      · simp [h]
      · simp only [h, if_false, Bool.false_eq_true]
        cases hs : splitOnPred p t <;> simp

theorem splitOnPred_singleton (p : Char → Bool) (l b : List Char)
    (h : splitOnPred p l = [b]) : l = b := by
  induction l generalizing b with
  | nil =>
      simp [splitOnPred] at h
      simp [h]
  | cons c t ih =>
      unfold splitOnPred at h
      by_cases hp : p c
      · rw [if_pos hp] at h
        simp at h
        exact absurd h.2 (splitOnPred_ne_nil p t)
      · rw [if_neg hp] at h
        cases hs : splitOnPred p t with
        | nil => exact absurd hs (splitOnPred_ne_nil p t)
        | cons x r =>
            rw [hs] at h
            simp at h
            obtain ⟨hb, hr⟩ := h
            subst hr
            have ht : t = x := ih x (by rw [hs])
            rw [← hb, ht]

theorem afterFirst_of_pair (p : Char → Bool) (l a b : List Char)
    (h : splitOnPred p l = [a, b]) :
    (l.dropWhile (fun c => !(p c))).drop 1 = b := by
  induction l generalizing a with
  | nil => simp [splitOnPred] at h
  | cons c t ih =>
      unfold splitOnPred at h
      by_cases hp : p c
      · rw [if_pos hp] at h
        simp at h
        have ht : t = b := splitOnPred_singleton p t b h.2
        simp [List.dropWhile_cons, hp, ht]
      · rw [if_neg hp] at h
        cases hs : splitOnPred p t with
        | nil => exact absurd hs (splitOnPred_ne_nil p t)
        | cons x r =>
            rw [hs] at h
            simp at h
            obtain ⟨ha, hr⟩ := h
            simp only [List.dropWhile_cons, hp, Bool.not_false, if_true]
            exact ih x (by rw [hs, hr])

/-- C1 (code bug): when only `INFO.OUT` is missing the program slips — the
`ReadError` message concatenates a `str` with the `pathlib.Path` that the
`out` property returns, so a `TypeError` is raised in place of the intended
`ReadError` naming the file; a missing `TOTENERGY.OUT`, `EIGVAL.OUT` or
`KPOINTS.OUT` (plain `os.path.join` strings) still raises `ReadError` naming
the file, and in every case nothing is read. -/
theorem elk_read_info_out_typeerror (pf : List Char → ℚ) (Hartree Bohr : ℚ)
    (t e k i : List (List Char)) (a : Option Unit)
    (p : Option (Option Bool)) :
    ELK.read pf Hartree Bohr ⟨some t, some e, some k, none, a, p⟩
      = ([], .error .typeError)
    ∧ ELK.read pf Hartree Bohr ⟨none, some e, some k, some i, a, p⟩
      = ([], .error (.readError "TOTENERGY.OUT"))
    ∧ ELK.read pf Hartree Bohr ⟨some t, none, some k, some i, a, p⟩
      = ([], .error (.readError "EIGVAL.OUT"))
    ∧ ELK.read pf Hartree Bohr ⟨some t, some e, none, some i, a, p⟩
      = ([], .error (.readError "KPOINTS.OUT")) :=
  ⟨rfl, rfl, rfl, rfl⟩

/-- C2: counterexample — an `INFO.OUT` that contains the convergence marker
together with the failed-loop marker is reported as not converged, so
`read_convergence` is not equivalent to mere presence of the marker; and at
such an unconverged input `read_results` fails with the `TypeError` from
concatenating the message with the `pathlib.Path` `out` property, not with
`RuntimeError`. -/
theorem elk_read_convergence_marker_cex :
    containsSub convergedMarker (lower (fileText
      [("convergence targets achieved".toList),
       ("reached self-consistent loops maximum".toList)])) = true
    ∧ read_convergence
        [("convergence targets achieved".toList),
         ("reached self-consistent loops maximum".toList)] = false
    ∧ read_results (fun _ => (1 : ℚ)) 1 1 none
        [("convergence targets achieved".toList),
         ("reached self-consistent loops maximum".toList)] []
      = .error .typeError
    ∧ read_results (fun _ => (1 : ℚ)) 1 1 none
        [("convergence targets achieved".toList),
         ("reached self-consistent loops maximum".toList)] []
      ≠ .error .runtimeError := by
  have hTE : read_results (fun _ => (1 : ℚ)) 1 1 none
      [("convergence targets achieved".toList),
       ("reached self-consistent loops maximum".toList)] []
    = .error .typeError := by rfl
  refine ⟨by decide, by decide, hTE, ?_⟩
  rw [hTE]
  simp

/-- C2 (amended): `read_convergence` returns `true` precisely when the
lowercased text of `INFO.OUT` contains the convergence marker and does not
contain the failed-loop marker, and `read_results` fails before any parsing,
storing no energy or forces, exactly when `read_convergence` is `false` —
raising `TypeError` (the message concatenates a `str` with the
`pathlib.Path` `out` property) in place of the intended `RuntimeError`. -/
theorem elk_read_results_convergence (pf : List Char → ℚ)
    (Hartree Bohr : ℚ) (tforce : Option Bool) (info tot : List (List Char)) :
    (read_convergence info = true ↔
      (containsSub convergedMarker (lower (fileText info)) = true ∧
       containsSub loopsMaxMarker (lower (fileText info)) = false))
    ∧ (read_results pf Hartree Bohr tforce info tot = .error .typeError ↔
       read_convergence info = false) := by
  constructor
  · simp [read_convergence]
  · unfold read_results
    cases hcv : read_convergence info
    · simp
    · simp only [Bool.not_true, Bool.false_eq_true, if_false, Bool.true_eq_false,
        iff_false]
      unfold read_energy
      cases hl : tot.getLast? with
      | none => simp
      | some l =>
          simp only []
          cases ht : pyTruthy tforce
          · simp
          · simp only [if_true]
            cases hf : read_forces pf Hartree Bohr info <;> simp

/-- C3: `read_energy` parses the last line of `TOTENERGY.OUT`, scales it by
`Hartree`, and stores the same value under both the `energy` and the
`free_energy` keys, leaving `forces` untouched. -/
theorem elk_read_energy_both_keys (pf : List Char → ℚ) (Hartree : ℚ)
    (tot : List (List Char)) (res : Results) (h : tot ≠ []) :
    ∃ r, read_energy pf Hartree tot res = .ok r
      ∧ r.energy = some (pf (tot.getLast h) * Hartree)
      ∧ r.free_energy = r.energy
      ∧ r.forces = res.forces := by
  refine ⟨⟨some (pf (tot.getLast h) * Hartree),
    some (pf (tot.getLast h) * Hartree), res.forces⟩, ?_, rfl, rfl, rfl⟩
  unfold read_energy
  rw [List.getLast?_eq_getLast tot h]

theorem elk_read_energy_both_keys_witness :
    ∃ r, read_energy (fun _ => (2 : ℚ)) 3 [['1']] {} = .ok r
      ∧ r.energy = some 6 ∧ r.free_energy = r.energy ∧ r.forces = none := by
  obtain ⟨r, h1, h2, h3, h4⟩ :=
    elk_read_energy_both_keys (fun _ => (2 : ℚ)) 3 [['1']] {} (by decide)
  refine ⟨r, h1, ?_, h3, h4⟩
  rw [h2]
  norm_num

/-- C7: `write_input` writes the calculator parameters to
`<directory>/parameters.ase` and the atoms in `elk-in` format to
`<directory>/elk.in`, and the external command is invoked only after the
whole of `write_input`, which itself invokes nothing. -/
theorem elk_write_input_before_invoke (dir : String) :
    calculate dir = write_input dir ++ [IOEvent.invoke "elk > elk.out"]
    ∧ IOEvent.writeParams (dir ++ "/parameters.ase") ∈ write_input dir
    ∧ IOEvent.writeAtoms (dir ++ "/elk.in") "elk-in" ∈ write_input dir
    ∧ noInvoke (write_input dir) = true := by
  exact ⟨rfl, by simp [write_input], by simp [write_input], rfl⟩

/-- C9: `check_state` never reports a `pbc` change: on a duplicate-free list
of detected changes it returns exactly the other changes, in order. -/
theorem elk_check_state_ignores_pbc (base : List String) (h : base.Nodup) :
    "pbc" ∉ check_state base
    ∧ check_state base = base.filter (fun c => c != "pbc") := by
  unfold check_state
  by_cases hc : base.contains "pbc"
  · simp only [hc, if_true]
    constructor
    · intro hm
      exact absurd (h.mem_erase_iff.mp hm).1 (by simp)
    · exact h.erase_eq_filter "pbc"
  · have hm : "pbc" ∉ base := by simpa using hc
    simp only [hc, Bool.false_eq_true, if_false]
    refine ⟨hm, ?_⟩
    symm
    rw [List.filter_eq_self]
    intro a ha
    simp only [bne_iff_ne, ne_eq]
    intro hab
    exact hm (hab ▸ ha)

/-- C10: `get_forces` raises `PropertyNotImplementedError` without triggering
any calculation whenever the `tforce` parameter is unset or falsy, and a
successful `read_results` has parsed forces exactly when `tforce` is
truthy. -/
theorem elk_get_forces_requires_tforce (pf : List Char → ℚ)
    (Hartree Bohr : ℚ) (tforce : Option Bool) (info tot : List (List Char)) :
    (pyTruthy tforce = false →
       get_forces tforce = ([], .error .propertyNotImplementedError))
    ∧ (pyTruthy tforce = true →
       get_forces tforce = ([CalcEvent.calculate], .ok ()))
    ∧ (∀ r, read_results pf Hartree Bohr tforce info tot = .ok r →
        (r.forces ≠ none ↔ pyTruthy tforce = true)) := by
  refine ⟨?_, ?_, ?_⟩
  · intro h
    simp [get_forces, h]
  · intro h
    simp [get_forces, h]
  · intro r hr
    unfold read_results read_energy at hr
    cases hcv : read_convergence info
    · rw [hcv] at hr
      simp at hr
    · rw [hcv] at hr
      simp only [Bool.not_true, Bool.false_eq_true, if_false] at hr
      cases hl : tot.getLast? with
      | none =>
          rw [hl] at hr
          simp at hr
      | some l =>
          rw [hl] at hr
          cases ht : pyTruthy tforce
          · rw [ht] at hr
            simp at hr
            simp [← hr]
          · rw [ht] at hr
            simp only [if_true] at hr
            cases hf : read_forces pf Hartree Bohr info with
            | none =>
                rw [hf] at hr
                simp at hr
            | some fl =>
                rw [hf] at hr
                simp at hr
                simp [← hr]

theorem elk_get_forces_requires_tforce_witness :
    get_forces none = ([], .error .propertyNotImplementedError)
    ∧ (({ energy := some (1 * 2), free_energy := some (1 * 2),
          forces := some [] } : Results).forces ≠ none ↔
        pyTruthy (some true) = true) := by
  constructor
  · exact (elk_get_forces_requires_tforce (fun _ => 1) 1 1 none [] []).1 rfl
  · exact (elk_get_forces_requires_tforce (fun _ => (1 : ℚ)) 2 3 (some true)
      [("convergence targets achieved".toList)] [("-1.0".toList)]).2.2
      { energy := some (1 * 2), free_energy := some (1 * 2),
        forces := some [] }
      (by rfl)

theorem read_forces_lines_eq (pf : List Char → ℚ) (info : List (List Char))
    (h : ∀ l ∈ info, containsSub totalForceMarker l = true →
         (pySplitColon l).length = 2) :
    read_forces_lines pf info = some
      ((info.filter (fun l => containsSub totalForceMarker l)).map
        (fun l => (pySplitWs (afterFirstColon l)).map pf)) := by
  induction info with
  | nil => rfl
  | cons l rest ih =>
      have hrest := ih (fun y hy hc => h y (List.mem_cons_of_mem l hy) hc)
      unfold read_forces_lines
      cases hc : containsSub totalForceMarker l
      · simp only [hc, Bool.false_eq_true, if_false]
        rw [hrest]
        simp [List.filter_cons, hc]
      · simp only [hc, if_true]
        obtain ⟨a, b, hab⟩ :=
          List.length_eq_two.mp (h l (List.mem_cons_self l rest) hc)
        rw [hab]
        have hb : afterFirstColon l = b := by
          have h2 := afterFirst_of_pair (fun c => c == ':') l a b hab
          simpa [afterFirstColon, bne] using h2
        simp only [List.get?]
        rw [hrest]
        simp [List.filter_cons, hc, hb]

/-- C4: `read_forces` produces one force vector per `INFO.OUT` line holding
the `total force` marker, in file order, parsing the whitespace-separated
numbers after the line's first colon (the lines having exactly one colon, as
ELK writes them) and scaling every component by `Hartree / Bohr`. -/
theorem elk_read_forces_marker_lines (pf : List Char → ℚ)
    (Hartree Bohr : ℚ) (info : List (List Char))
    (h : ∀ l ∈ info, containsSub totalForceMarker l = true →
         (pySplitColon l).length = 2) :
    read_forces pf Hartree Bohr info = some
      ((info.filter (fun l => containsSub totalForceMarker l)).map
        (fun l => (pySplitWs (afterFirstColon l)).map
          (fun t => pf t * Hartree / Bohr))) := by
  unfold read_forces
  rw [read_forces_lines_eq pf info h]
  simp [List.map_map, Function.comp]

theorem elk_read_forces_marker_lines_witness :
    read_forces (fun _ => (1 : ℚ)) 3 2
        [(" total force : 1 2".toList), ("noforce".toList)] = some
      ((([(" total force : 1 2".toList), ("noforce".toList)]).filter
          (fun l => containsSub totalForceMarker l)).map
        (fun l => (pySplitWs (afterFirstColon l)).map
          (fun t => (fun _ => (1 : ℚ)) t * 3 / 2))) :=
  elk_read_forces_marker_lines (fun _ => 1) 3 2
    [(" total force : 1 2".toList), ("noforce".toList)] (by decide)

theorem elk_check_state_ignores_pbc_witness :
    "pbc" ∉ check_state ["positions", "pbc", "cell"]
    ∧ check_state ["positions", "pbc", "cell"]
        = ["positions", "pbc", "cell"].filter (fun c => c != "pbc") :=
  elk_check_state_ignores_pbc ["positions", "pbc", "cell"] (by decide)

end ElkModel


namespace QMMMModel

/-- C5: the carved-out QM cluster is periodic along an axis exactly when the
QM radius plus the buffer width reaches the original cell length there; a
periodic axis keeps its cell length, a non-periodic axis (whose carve
diameter differs from the cell length, as in the test scenarios) does not,
and a cell carved in x and y while spanned in z yields
`pbc = [false, false, true]` with only the z length preserved. -/
theorem forceqmmm_cluster_pbc_geometry (R b L₁ L₂ L₃ : ℚ)
    (hx : R + b < L₁) (hy : R + b < L₂) (hz : L₃ ≤ R + b)
    (hx2 : 2 * (R + b) ≠ L₁) (hy2 : 2 * (R + b) ≠ L₂) :
    (∀ L, qm_cluster_pbc R b L = true ↔ L ≤ R + b)
    ∧ (∀ L, qm_cluster_pbc R b L = true → qm_cluster_cellLen R b L = L)
    ∧ (∀ L, qm_cluster_pbc R b L = false → 2 * (R + b) ≠ L →
        qm_cluster_cellLen R b L ≠ L)
    ∧ [qm_cluster_pbc R b L₁, qm_cluster_pbc R b L₂, qm_cluster_pbc R b L₃]
        = [false, false, true]
    ∧ qm_cluster_cellLen R b L₃ = L₃
    ∧ qm_cluster_cellLen R b L₁ ≠ L₁ ∧ qm_cluster_cellLen R b L₂ ≠ L₂ := by
  have hpbc : ∀ L, qm_cluster_pbc R b L = true ↔ L ≤ R + b := by
    intro L
    simp [qm_cluster_pbc]
  have hlen : ∀ L, qm_cluster_pbc R b L = false → 2 * (R + b) ≠ L →
      qm_cluster_cellLen R b L ≠ L := by
    intro L hL hne
    have hnle : ¬ L ≤ R + b := by
      intro hle
      rw [(hpbc L).mpr hle] at hL
      cases hL
    simp only [qm_cluster_cellLen, hnle, if_false]
    exact hne
  have hx0 : qm_cluster_pbc R b L₁ = false := by
    simp [qm_cluster_pbc, not_le.mpr hx]
  have hy0 : qm_cluster_pbc R b L₂ = false := by
    simp [qm_cluster_pbc, not_le.mpr hy]
  have hz0 : qm_cluster_pbc R b L₃ = true := (hpbc L₃).mpr hz
  refine ⟨hpbc, ?_, hlen, ?_, ?_, hlen L₁ hx0 hx2, hlen L₂ hy0 hy2⟩
  · intro L hL
    simp [qm_cluster_cellLen, (hpbc L).mp hL]
  · rw [hx0, hy0, hz0]
  · simp [qm_cluster_cellLen, hz]

theorem forceqmmm_cluster_pbc_geometry_witness :
    [qm_cluster_pbc (3/4) (1/4) 4, qm_cluster_pbc (3/4) (1/4) 4,
     qm_cluster_pbc (3/4) (1/4) 1] = [false, false, true]
    ∧ qm_cluster_cellLen (3/4) (1/4) 1 = 1
    ∧ qm_cluster_cellLen (3/4) (1/4) 4 ≠ 4 := by
  have h := forceqmmm_cluster_pbc_geometry (3/4) (1/4) 4 4 1 (by norm_num)
    (by norm_num) (by norm_num) (by norm_num) (by norm_num)
  exact ⟨h.2.2.2.1, h.2.2.2.2.1, h.2.2.2.2.2.1⟩

end QMMMModel

namespace ElkModel

theorem penultimate_getD (l : List α) (d : α) (h : 2 ≤ l.length) :
    l.dropLast.getLast? = some (l.getD (l.length - 2) d) := by
  rw [List.getLast?_eq_getElem? l.dropLast, List.length_dropLast,
    List.getElem?_dropLast]
  have h1 : l.length - 1 - 1 < l.length - 1 := by omega
  rw [if_pos h1]
  have h2 : l.length - 1 - 1 = l.length - 2 := by omega
  have h3 : l.length - 2 < l.length := by omega
  rw [h2, List.getElem?_eq_getElem h3, List.getD_eq_getElem?_getD,
    List.getElem?_eq_getElem h3]
  rfl

theorem eig_row_eigen (pf : List Char → ℚ) (H : ℚ) (l : List Char)
    (h : 2 ≤ (pySplitWs l).length) :
    (((pySplitWs l).drop 1).map pf).head?.map (fun x => H * x)
      = some (H * pf ((pySplitWs l).getD 1 [])) := by
  have h1 : 1 < (pySplitWs l).length := by omega
  rw [List.head?_eq_getElem?, List.getElem?_map, List.getElem?_drop]
  simp only [Nat.add_zero]
  rw [List.getElem?_eq_getElem h1, List.getD_eq_getElem?_getD,
    List.getElem?_eq_getElem h1]
  rfl

theorem eig_row_occ (pf : List Char → ℚ) (l : List Char)
    (h : 3 ≤ (pySplitWs l).length) :
    (((pySplitWs l).drop 1).map pf).get? 1
      = some (pf ((pySplitWs l).getD 2 [])) := by
  have h1 : 2 < (pySplitWs l).length := by omega
  rw [List.get?_eq_getElem?, List.getElem?_map, List.getElem?_drop]
  have h2 : 1 + 1 = 2 := rfl
  rw [h2, List.getElem?_eq_getElem h1, List.getD_eq_getElem?_getD,
    List.getElem?_eq_getElem h1]
  rfl

theorem countAtMarker_eq_none (pyInt : List Char → ℕ) (m : List Char)
    (lines : List (List Char))
    (h : lines.any (fun l => containsSub m l) = false) :
    countAtMarker pyInt m lines = none := by
  unfold countAtMarker
  rw [List.find?_eq_none.mpr]
  · rfl
  · intro x hx
    have := List.any_eq_false.mp h x hx
    simp [this]

theorem countAtMarker_isSome (pyInt : List Char → ℕ) (m : List Char)
    (lines : List (List Char))
    (h : lines.any (fun l => containsSub m l) = true) :
    (countAtMarker pyInt m lines).isSome = true := by
  unfold countAtMarker
  have hf : (List.find? (fun l => containsSub m l) lines).isSome := by
    rw [List.find?_isSome]
    exact List.any_eq_true.mp h
  obtain ⟨y, hy⟩ := Option.isSome_iff_exists.mp hf
  rw [hy]
  rfl

/-- C8: counterexample — `EIGVAL.OUT` content containing the `: nstsv` marker
but lacking `: nkpt` makes `read_eigenvalues` fail on its assertion instead
of returning the parsed array. -/
theorem elk_read_eigenvalues_marker_cex :
    ([("  2 : nstsv".toList)] : List (List Char)).any
        (fun l => containsSub nstsvMarker l) = true
    ∧ read_eigenvalues (fun _ => 0) (fun _ => 2) 1 false 0 0
        EigMode.eigenvalues [("  2 : nstsv".toList)]
      = .error .assertionError := by
  exact ⟨by decide, by rfl⟩

/-- C8 (amended): `read_kpts` and `read_eigenvalues` locate their data via
the fixed markers `: nkpt` and `: nstsv`; a call whose required markers are
absent fails its assertion, `read_kpts` returns coordinates from token
columns 1-3 or weights from the second-to-last token of each data line, and
`read_eigenvalues` — which requires both markers — returns column 1 scaled
by `Hartree` (eigenvalues) or column 2 unscaled (occupations) of its
k-point block. -/
theorem elk_read_kpts_eigenvalues_markers (pf : List Char → ℚ)
    (pyInt : List Char → ℕ) (Hartree : ℚ) :
    (∀ lines, lines.any (fun l => containsSub nkptMarker l) = false →
       read_kpts_ibz pf lines = .error .assertionError ∧
       read_kpts_weights pf lines = .error .assertionError)
    ∧ (∀ lines, lines.any (fun l => containsSub nkptMarker l) = true →
       read_kpts_ibz pf lines = .ok (emptyToNone ((lines.drop 1).map
         (fun l => (((pySplitWs l).drop 1).take 3).map pf))))
    ∧ (∀ lines, lines.any (fun l => containsSub nkptMarker l) = true →
       (∀ l ∈ lines.drop 1, 2 ≤ (pySplitWs l).length) →
       read_kpts_weights pf lines = .ok (emptyToNone ((lines.drop 1).map
         (fun l => pf ((pySplitWs l).getD ((pySplitWs l).length - 2) [])))))
    ∧ (∀ spinpol kpt spin mode lines,
       lines.any (fun l => containsSub nstsvMarker l) = false →
       read_eigenvalues pf pyInt Hartree spinpol kpt spin mode lines =
         .error .assertionError)
    ∧ (∀ spinpol kpt spin mode lines,
       lines.any (fun l => containsSub nkptMarker l) = false →
       read_eigenvalues pf pyInt Hartree spinpol kpt spin mode lines =
         .error .assertionError)
    ∧ (∀ spinpol kpt spin lines nstsv,
       countAtMarker pyInt nstsvMarker lines = some nstsv →
       lines.any (fun l => containsSub nkptMarker l) = true →
       (∀ l ∈ eigSegment spinpol kpt spin nstsv lines,
          2 ≤ (pySplitWs l).length) →
       read_eigenvalues pf pyInt Hartree spinpol kpt spin
           EigMode.eigenvalues lines =
         .ok (emptyToNone ((eigSegment spinpol kpt spin nstsv lines).map
           (fun l => Hartree * pf ((pySplitWs l).getD 1 [])))))
    ∧ (∀ spinpol kpt spin lines nstsv,
       countAtMarker pyInt nstsvMarker lines = some nstsv →
       lines.any (fun l => containsSub nkptMarker l) = true →
       (∀ l ∈ eigSegment spinpol kpt spin nstsv lines,
          3 ≤ (pySplitWs l).length) →
       read_eigenvalues pf pyInt Hartree spinpol kpt spin
           EigMode.occupations lines =
         .ok (emptyToNone ((eigSegment spinpol kpt spin nstsv lines).map
           (fun l => pf ((pySplitWs l).getD 2 []))))) := by
  refine ⟨?_, ?_, ?_, ?_, ?_, ?_, ?_⟩
  · intro lines h
    constructor
    · simp [read_kpts_ibz, h]
    · simp [read_kpts_weights, h]
  · intro lines h
    simp [read_kpts_ibz, h]
  · intro lines h h2
    unfold read_kpts_weights
    simp only [h, if_true]
    rw [optMapM_eq_map _
      (fun l => pf ((pySplitWs l).getD ((pySplitWs l).length - 2) []))
      (lines.drop 1) ?_]
    · intro l hl
      rw [penultimate_getD (pySplitWs l) [] (h2 l hl)]
      rfl
  · intro spinpol kpt spin mode lines h
    unfold read_eigenvalues
    rw [countAtMarker_eq_none pyInt nstsvMarker lines h]
  · intro spinpol kpt spin mode lines h
    unfold read_eigenvalues
    cases hs : countAtMarker pyInt nstsvMarker lines with
    | none => rfl
    | some n =>
        rw [countAtMarker_eq_none pyInt nkptMarker lines h]
  · intro spinpol kpt spin lines nstsv hn hk hrows
    unfold read_eigenvalues
    rw [hn]
    cases hkm : countAtMarker pyInt nkptMarker lines with
    | none =>
        have := countAtMarker_isSome pyInt nkptMarker lines hk
        rw [hkm] at this
        simp at this
    | some k =>
        simp only []
        rw [optMapM_map]
        rw [optMapM_eq_map _
          (fun l => Hartree * pf ((pySplitWs l).getD 1 []))
          (eigSegment spinpol kpt spin nstsv lines)
          (fun l hl => eig_row_eigen pf Hartree l (hrows l hl))]
  · intro spinpol kpt spin lines nstsv hn hk hrows
    unfold read_eigenvalues
    rw [hn]
    cases hkm : countAtMarker pyInt nkptMarker lines with
    | none =>
        have := countAtMarker_isSome pyInt nkptMarker lines hk
        rw [hkm] at this
        simp at this
    | some k =>
        simp only []
        rw [optMapM_map]
        rw [optMapM_eq_map _
          (fun l => pf ((pySplitWs l).getD 2 []))
          (eigSegment spinpol kpt spin nstsv lines)
          (fun l hl => eig_row_occ pf l (hrows l hl))]

end ElkModel

namespace ElkModel

theorem elk_read_results_convergence_witness :
    read_results (fun _ => (1 : ℚ)) 1 1 none [("no markers here".toList)] []
      = .error .typeError := by
  have h := (elk_read_results_convergence (fun _ => (1 : ℚ)) 1 1 none
    [("no markers here".toList)] []).2
  exact h.mpr (by decide)

theorem elk_read_kpts_eigenvalues_markers_witness :
    read_kpts_ibz (fun _ => (1 : ℚ))
        [("  2 : nkpt".toList), (" 1  0.25 0.25 0.25  0.125".toList)]
      = .ok (emptyToNone
          ((([("  2 : nkpt".toList),
              (" 1  0.25 0.25 0.25  0.125".toList)]).drop 1).map
            (fun l => (((pySplitWs l).drop 1).take 3).map
              (fun _ => (1 : ℚ))))) := by
  have h := (elk_read_kpts_eigenvalues_markers (fun _ => (1 : ℚ))
    (fun _ => 2) 1).2.1
  exact h [("  2 : nkpt".toList), (" 1  0.25 0.25 0.25  0.125".toList)]
    (by decide)

end ElkModel
